import Mathlib

/-!
Verification of the call-recording HTML converter (`mango_conv.py`).

The parser operates on Python strings; we embed a Python `str` as a
`List Char` (a sequence of Unicode code points) and translate each string
operation the source uses (`strip`, `split`, `splitlines`, `rstrip`,
`startswith`, `endswith`, decimal rendering of `int`) faithfully.

A BeautifulSoup table cell is embedded as the ordered list of its text-node
strings: `get_text(sep)` joins them with `sep`, `get_text(sep, strip=True)`
strips each node, drops the empty ones and joins the rest with `sep`, and
`.text` is `get_text()` with the empty separator.  A table row is the list
of its `td` cells; a table is the list of its rows; a document is the list
of its tables in document order (`soup.find("table")` takes the head).
-/

/-- A Python string: a sequence of Unicode code points. -/
abbrev Str := List Char

/-- The character class Python `str.strip()` removes (ASCII whitespace:
space, tab, newline, carriage return, vertical tab, form feed). -/
def isPySpace (c : Char) : Bool :=
  c == ' ' || c == '\t' || c == '\n' || c == '\r' || c == '\x0b' || c == '\x0c'

/-- Python `str.strip()`: drop leading and trailing whitespace. -/
def pyStrip (s : Str) : Str :=
  ((s.dropWhile isPySpace).reverse.dropWhile isPySpace).reverse

/-- Python `str.rstrip(":")`: drop every trailing colon. -/
def pyRstripColon (s : Str) : Str :=
  (s.reverse.dropWhile (· == ':')).reverse

/-- Fuel-driven worker for `pySplit`: scan for the separator `s0 :: srest`
left to right, cutting at each non-overlapping occurrence.  The fuel is
always at least the length of the scanned list, so the base case is never
hit on the arguments `pySplit` passes. -/
def pySplitAux (s0 : Char) (srest : Str) : Nat → Str → List Str
  | 0, s => [s]
  | fuel + 1, s =>
    match s with
    | [] => [[]]
    | c :: rest =>
      if c = s0 ∧ srest.isPrefixOf rest then
        [] :: pySplitAux s0 srest fuel (rest.drop srest.length)
      else
        match pySplitAux s0 srest fuel rest with
        | [] => [[c]]
        | cur :: acc => (c :: cur) :: acc

/-- Python `str.split(sep)` for a non-empty separator `sep`: split on every
non-overlapping occurrence, keeping empty pieces.  (Python raises on an
empty separator; the source only calls this with `"##"` and `":"`.) -/
def pySplit (sep s : Str) : List Str :=
  match sep with
  | [] => [s]
  | s0 :: srest => pySplitAux s0 srest s.length s

/-- Fuel-driven worker for `pySplitlines`; the fuel is always at least the
length of the scanned list, so the middle base case is never hit on the
arguments `pySplitlines` passes. -/
def pySplitlinesAux : Nat → Str → List Str
  | _, [] => []
  | 0, _ :: _ => []
  | fuel + 1, c :: rest =>
    if c = '\n' then [] :: pySplitlinesAux fuel rest
    else if c = '\r' then
      match rest with
      | '\n' :: rest2 => [] :: pySplitlinesAux fuel rest2
      | _ => [] :: pySplitlinesAux fuel rest
    else
      match pySplitlinesAux fuel rest with
      | [] => [[c]]
      | l :: ls => (c :: l) :: ls

/-- Python `str.splitlines()`: split on line boundaries (`\n`, `\r`,
`\r\n`), producing no trailing empty piece for a trailing boundary. -/
def pySplitlines (s : Str) : List Str := pySplitlinesAux s.length s

/-- Value of a decimal digit character. -/
def digitVal (c : Char) : Nat := c.toNat - 48

/-- Python `int(p)` for a non-empty all-digit string (the only shape the
source ever passes, since it filters to digits first). -/
def digitsToNat (p : Str) : Nat :=
  p.foldl (fun a c => a * 10 + digitVal c) 0

/-- Fuel-driven worker for `natToChars`; the fuel `n + 1` always exceeds the
number of decimal digits of `n`. -/
def natToCharsAux : Nat → Nat → Str → Str
  | 0, _, acc => acc
  | fuel + 1, n, acc =>
    let d := Char.ofNat (48 + n % 10)
    if n < 10 then d :: acc else natToCharsAux fuel (n / 10) (d :: acc)

/-- Python `str(n)` for a non-negative integer: its decimal digits. -/
def natToChars (n : Nat) : Str := natToCharsAux (n + 1) n []

/-- Embeds `_duration_to_seconds` (mango_conv.py lines 32-49): strip every
character that is not a digit or a colon, split on `":"`, keep the
non-empty pieces as integers, and combine 3 parts as h:m:s, 2 as m:s,
1 as plain seconds; anything else (0 or more than 3 parts, or a falsy
input, i.e. `None` or the empty string) gives `None`. -/
def _duration_to_seconds (raw : Option Str) : Option Nat :=
  match raw with
  | none => none
  | some r =>
    if r = [] then none
    else
      let cleaned := r.filter (fun c => c.isDigit || c == ':')
      let parts := ((pySplit [':'] cleaned).filter (· ≠ [])).map digitsToNat
      match parts with
      | [h, m, s] => some (h * 3600 + m * 60 + s)
      | [m, s] => some (m * 60 + s)
      | [x] => some x
      | _ => none

/-! ### `datetime.strptime` with the fixed format `"%d.%b.%Y %H:%M:%S"`

CPython's `_strptime` compiles the format to an anchored regex: `%d`, `%H`,
`%M`, `%S` match one or two digits (with the value ranges 1-31, 0-23, 0-59,
0-61 respectively), `%b` matches a month abbreviation case-insensitively,
`%Y` matches exactly four digits, a space matches one or more whitespace
characters, and the whole input must be consumed.  The `datetime`
constructor then additionally requires year >= 1, day <= days-in-month and
second <= 59; any failure raises `ValueError`, which the caller turns into
`None` - so the embedding returns `Option`. -/

/-- Result of a successful `datetime.strptime` call. -/
structure PyDateTime where
  year : Nat
  month : Nat
  day : Nat
  hour : Nat
  minute : Nat
  second : Nat
deriving DecidableEq, Repr

/-- Lowercase month abbreviations of the C locale, in month order. -/
def monthAbbrevs : List Str :=
  ["jan", "feb", "mar", "apr", "may", "jun",
   "jul", "aug", "sep", "oct", "nov", "dec"].map String.toList

/-- Read one or two leading decimal digits (greedy, as the anchored regex
does when a non-digit literal follows), returning the value and the rest. -/
def readNum2 : Str → Option (Nat × Str)
  | [] => none
  | c :: rest =>
    if c.isDigit then
      match rest with
      | c2 :: rest2 =>
        if c2.isDigit then some (digitVal c * 10 + digitVal c2, rest2)
        else some (digitVal c, rest)
      | [] => some (digitVal c, [])
    else none

/-- Consume one or more whitespace characters (the `\s+` a space in the
format compiles to). -/
def skipWs1 : Str → Option Str
  | [] => none
  | c :: rest => if isPySpace c then some (rest.dropWhile isPySpace) else none

/-- Gregorian leap-year rule, as in Python's `datetime`. -/
def isLeapYear (y : Nat) : Bool :=
  (y % 4 == 0 && y % 100 != 0) || y % 400 == 0

/-- Days in a month, as validated by Python's `datetime` constructor. -/
def daysInMonth (y m : Nat) : Nat :=
  if m = 2 then (if isLeapYear y then 29 else 28)
  else if m = 4 ∨ m = 6 ∨ m = 9 ∨ m = 11 then 30
  else 31

/-- Embeds `datetime.strptime(s, "%d.%b.%Y %H:%M:%S")`, returning `none` where
Python raises `ValueError` (pattern mismatch, unconverted trailing data, or
an out-of-range component). -/
def strptimeDbY (s : Str) : Option PyDateTime :=
  match readNum2 s with
  | none => none
  | some (d, s1) =>
    match s1 with
    | '.' :: s2 =>
      if s2.length < 3 then none
      else
        match monthAbbrevs.findIdx? (fun a => a = (s2.take 3).map Char.toLower) with
        | none => none
        | some mi =>
          match s2.drop 3 with
          | '.' :: s3 =>
            let ychars := s3.take 4
            if ychars.length = 4 ∧ ychars.all Char.isDigit then
              match skipWs1 (s3.drop 4) with
              | none => none
              | some s4 =>
                match readNum2 s4 with
                | none => none
                | some (hh, s5) =>
                  match s5 with
                  | ':' :: s6 =>
                    match readNum2 s6 with
                    | none => none
                    | some (mm, s7) =>
                      match s7 with
                      | ':' :: s8 =>
                        match readNum2 s8 with
                        | none => none
                        | some (ss, s9) =>
                          let y := digitsToNat ychars
                          if s9 = [] ∧ 1 ≤ y ∧ 1 ≤ d ∧ d ≤ daysInMonth y (mi + 1) ∧
                              hh ≤ 23 ∧ mm ≤ 59 ∧ ss ≤ 59 then
                            some ⟨y, mi + 1, d, hh, mm, ss⟩
                          else none
                      | _ => none
                  | _ => none
            else none
          | _ => none
    | _ => none

/-! ### Markup model: cells, rows, tables, documents -/

/-- A table cell (`td`): the ordered list of its text-node strings. -/
structure Cell where
  strings : List Str
deriving DecidableEq, Repr

/-- BeautifulSoup `td.get_text(sep)`: join all text nodes with `sep`. -/
def Cell.getText (c : Cell) (sep : Str) : Str :=
  List.intercalate sep c.strings

/-- BeautifulSoup `td.get_text(sep, strip=True)`: strip each text node,
drop the empty ones, join the rest with `sep`. -/
def Cell.getTextStrip (c : Cell) (sep : Str) : Str :=
  List.intercalate sep ((c.strings.map pyStrip).filter (· ≠ []))

/-- BeautifulSoup `td.text`, i.e. `get_text()` with the empty separator. -/
def Cell.text (c : Cell) : Str := c.getText []

/-- A table row: the list of its `td` cells (`tr.find_all("td")`). -/
abbrev Row := List Cell

/-- A table: the list of its rows (`table.find_all("tr")`). -/
abbrev Table := List Row

/-- The separator `SEPARATOR = "##"` (mango_conv.py line 59). -/
def SEPARATOR : Str := "##".toList

/-- Embeds `_clean` (mango_conv.py lines 52-56): `" ".join(ln.strip() for ln in
td.get_text("\n", strip=True).splitlines() if ln.strip())`. -/
def _clean (td : Cell) : Str :=
  List.intercalate [' ']
    (((pySplitlines (td.getTextStrip ['\n'])).map pyStrip).filter (· ≠ []))

/-! ### The header dictionary -/

/-- A value stored in the header dict: label/value strings, the optional
parsed datetime, or the optional duration in seconds. -/
inductive HVal where
  | str (s : Str)
  | dt (d : Option PyDateTime)
  | int (n : Option Nat)
deriving DecidableEq, Repr

/-- The header: a Python dict from field names to values, embedded as an
association list without duplicate keys (insertion order preserved). -/
abbrev Header := List (Str × HVal)

/-- Python `header[k] = v`: overwrite in place if `k` is present, append
otherwise. -/
def dictSet (d : Header) (k : Str) (v : HVal) : Header :=
  if d.any (fun p => p.1 == k) then
    d.map (fun p => if p.1 == k then (k, v) else p)
  else d ++ [(k, v)]

/-- The string stored in the header under key `k`, if any. -/
def getStrOpt (h : Header) (k : Str) : Option Str :=
  match List.lookup k h with
  | some (HVal.str s) => some s
  | _ => none

/-- Embeds `LABEL_XLAT` (mango_conv.py lines 24-29): translation of Russian header
labels to English column names. -/
def LABEL_XLAT : List (Str × Str) :=
  [("Номер линии АТС".toList, "line_number".toList),
   ("Кто звонил".toList, "caller".toList),
   ("С кем говорил".toList, "callee".toList),
   ("Длительность".toList, "duration_raw".toList)]

/-- The banner marker `"Запись разговоров"` (mango_conv.py line 92). -/
def bannerMarker : Str := "Запись разговоров".toList

/-- The employee role marker `"Сотрудник"` (mango_conv.py line 108). -/
def employeeMarker : Str := "Сотрудник".toList

/-- The client role marker `"Клиент"` (mango_conv.py lines 108 and 115). -/
def clientMarker : Str := "Клиент".toList

/-- Header key `"call_datetime_raw"`. -/
def callDatetimeRawKey : Str := "call_datetime_raw".toList

/-- Header key `"call_datetime"`. -/
def callDatetimeKey : Str := "call_datetime".toList

/-- Header key `"duration_raw"`. -/
def durationRawKey : Str := "duration_raw".toList

/-- Header key `"duration_seconds"`. -/
def durationSecondsKey : Str := "duration_seconds".toList

/-- Header key `"conversation"`. -/
def conversationKey : Str := "conversation".toList

/-! ### The row loop of `parse_call_html` -/

/-- One dialogue entry as appended to the `dialogue` list
(mango_conv.py lines 112-119). -/
structure DialogueEntry where
  role_ru : Str
  role_en : Str
  timestamp_local : Str
  text : Str
deriving DecidableEq, Repr

/-- One row of the conversation DataFrame, after `turn_index` assignment
and column selection (mango_conv.py lines 127-131). -/
structure Turn where
  turn_index : Nat
  role_ru : Str
  role_en : Str
  timestamp_local : Str
  text : Str
deriving DecidableEq, Repr

/-- The loop state of `parse_call_html`: the `header` dict, the `dialogue`
list and the `conversation_lines` list (mango_conv.py lines 82-84). -/
structure ParseState where
  header : Header
  dialogue : List DialogueEntry
  conversationLines : List Str
deriving DecidableEq, Repr

/-- The initial loop state: all three accumulators empty. -/
def initState : ParseState := ⟨[], [], []⟩

/-- A default cell; the indices `tds[1]` and `tds[2]` below are only taken
under guards that make them in range, so the default is never selected. -/
def cellDefault : Cell := ⟨[]⟩

/-- Embeds `text = tds[0].get_text(SEPARATOR).strip()` (mango_conv.py line 90). -/
def rowText (tds : Row) : Str :=
  pyStrip (Cell.getText (tds.headD cellDefault) SEPARATOR)

/-- The dialogue entry built from a dialogue row
(mango_conv.py lines 112-119). -/
def mkEntry (tds : Row) : DialogueEntry :=
  let text := rowText tds
  { role_ru := text
    role_en := if text = clientMarker then "client".toList else "employee".toList
    timestamp_local := pyStrip (Cell.text (tds.getD 1 cellDefault))
    text := _clean (tds.getD 2 cellDefault) }

/-- The transcript line appended for the dialogue entry `e` when
`conversation_lines` already holds `i` lines: the f-string
`f"{len(conversation_lines)}. {tds[1].text.strip()}. {text}: {_clean(tds[2])}"`
(mango_conv.py line 110), whose interpolated pieces are exactly the fields
of `mkEntry tds`. -/
def renderEntry (i : Nat) (e : DialogueEntry) : Str :=
  natToChars i ++ ". ".toList ++ e.timestamp_local ++ ". ".toList ++
    e.role_ru ++ ": ".toList ++ e.text

/-- The first-cell text starts with the banner marker
(`text.startswith("Запись разговоров")`, mango_conv.py line 92). -/
def isBannerRow (tds : Row) : Bool :=
  bannerMarker.isPrefixOf (rowText tds)

/-- The row is a two-column header row (`len(tds) == 2 and
text.endswith(":")`, mango_conv.py line 103). -/
def isLabelValueRow (tds : Row) : Bool :=
  tds.length == 2 && [':'].isSuffixOf (rowText tds)

/-- The dialogue-row guard (`len(tds) >= 3 and (text.startswith("Сотрудник")
or text.startswith("Клиент"))`, mango_conv.py line 108). -/
def dialogueGuard (tds : Row) : Bool :=
  decide (3 ≤ tds.length) &&
    (employeeMarker.isPrefixOf (rowText tds) || clientMarker.isPrefixOf (rowText tds))

/-- The body of the `for tr in table.find_all("tr")` loop
(mango_conv.py lines 86-119), as a fold step over the loop state. -/
def processRow (st : ParseState) (tds : Row) : ParseState :=
  if tds.isEmpty then st
  else if isBannerRow tds then
    if 1 < (pySplit SEPARATOR (rowText tds)).length then
      { st with
          header := dictSet
            (dictSet st.header callDatetimeRawKey
              (HVal.str ((pySplit SEPARATOR (rowText tds)).getD 1 [])))
            callDatetimeKey
            (HVal.dt (strptimeDbY ((pySplit SEPARATOR (rowText tds)).getD 1 []))) }
    else st
  else if isLabelValueRow tds then
    { st with
        header := dictSet st.header
          ((List.lookup (pyRstripColon (rowText tds)) LABEL_XLAT).getD
            (pyRstripColon (rowText tds)))
          (HVal.str (pyStrip (Cell.text (tds.getD 1 cellDefault)))) }
  else if dialogueGuard tds then
    { st with
        dialogue := st.dialogue ++ [mkEntry tds]
        conversationLines :=
          st.conversationLines ++
            [renderEntry st.conversationLines.length (mkEntry tds)] }
  else st

/-- The rows the loop recognizes as dialogue rows: every earlier branch of
the `if`/`elif` chain declined and the dialogue guard holds. -/
def isDialogueRow (tds : Row) : Bool :=
  !tds.isEmpty && !isBannerRow tds && !isLabelValueRow tds && dialogueGuard tds

/-- Embeds `pd.DataFrame(dialogue).assign(turn_index=lambda d: d.index + 1)`:
`turn_index` is one plus the positional index
(mango_conv.py lines 127-131). -/
def assignTurnIdx : Nat → List DialogueEntry → List Turn
  | _, [] => []
  | i, e :: es =>
    { turn_index := i, role_ru := e.role_ru, role_en := e.role_en,
      timestamp_local := e.timestamp_local, text := e.text } :: assignTurnIdx (i + 1) es

/-- The two ways `parse_call_html` can raise: the explicit
`ValueError("No table found in the HTML")` (line 80), and the `KeyError`
pandas raises at line 130 when `.loc[:, [...]]` selects the columns
`role_ru`, `role_en`, `timestamp_local`, `text` that `pd.DataFrame([])`
does not have - which happens exactly when `dialogue` is empty (pandas
since 1.0 raises `KeyError` when a list indexer contains missing labels). -/
inductive ParseError where
  | noTableFound
  | pandasKeyError
deriving DecidableEq, Repr

/-- The header post-processing after the loop (mango_conv.py lines 121-124):
convert the duration if one was captured, then always store the
newline-joined transcript under `conversation`. -/
def finalHeader (st : ParseState) : Header :=
  dictSet
    (if (List.lookup durationRawKey st.header).isSome then
       dictSet st.header durationSecondsKey
         (HVal.int (_duration_to_seconds (getStrOpt st.header durationRawKey)))
     else st.header)
    conversationKey
    (HVal.str (List.intercalate ['\n'] st.conversationLines))

/-- Embeds `parse_call_html` (mango_conv.py lines 62-132) over a document, given
as its list of tables in document order; `soup.find("table")` is the head.
Successful results are the header dict and the turn list. -/
def parse_call_html (doc : List Table) : Except ParseError (Header × List Turn) :=
  match doc.head? with
  | none => Except.error ParseError.noTableFound
  | some table =>
    let st := table.foldl processRow initState
    if st.dialogue.isEmpty then Except.error ParseError.pandasKeyError
    else Except.ok (finalHeader st, assignTurnIdx 1 st.dialogue)

deriving instance DecidableEq for Except

/-- The transcript lines rendered for a dialogue suffix, starting at
running index `i`. -/
def renderAll (i : Nat) : List DialogueEntry → List Str
  | [] => []
  | e :: es => renderEntry i e :: renderAll (i + 1) es

/-- What the loop guarantees about every accumulated dialogue entry. -/
def entryOK (e : DialogueEntry) : Prop :=
  (e.role_en = "client".toList ↔ e.role_ru = clientMarker) ∧
  (e.role_ru ≠ clientMarker → e.role_en = "employee".toList) ∧
  (employeeMarker.isPrefixOf e.role_ru = true ∨ clientMarker.isPrefixOf e.role_ru = true) ∧
  (∀ c ∈ e.text, c ≠ '\n')

/-- The loop invariant: the transcript lines are the rendering of the
dialogue entries, and every entry is well-formed. -/
def stateOK (st : ParseState) : Prop :=
  st.conversationLines = renderAll 0 st.dialogue ∧ ∀ e ∈ st.dialogue, entryOK e

/-- The transcript lines a turn sequence should correspond to, numbering
from `j`: line `j` is built from the fields of turn `j`. -/
def renderedLines : Nat → List Turn → List Str
  | _, [] => []
  | j, t :: ts =>
    (natToChars j ++ ". ".toList ++ t.timestamp_local ++ ". ".toList ++
      t.role_ru ++ ": ".toList ++ t.text) :: renderedLines (j + 1) ts

/-- The DurationParser exactly as §4.7 of the spec words it, for comparison
with the source's `_duration_to_seconds`: strip every character that is not
a digit or colon, split on colon, discard empty segments, parse the rest as
integers; 3 segments are h:m:s, 2 are m:s, 1 is plain seconds, zero
segments (which covers the empty string) or an absent input give null. -/
def durationSpecParse (raw : Option Str) : Option Nat :=
  match raw with
  | none => none
  | some r =>
    match ((pySplit [':'] (r.filter (fun c => c.isDigit || c == ':'))).filter
        (· ≠ [])).map digitsToNat with
    | [h, m, s] => some (h * 3600 + m * 60 + s)
    | [m, s] => some (m * 60 + s)
    | [x] => some x
    | _ => none

/-! ### Concrete documents and result extractors -/

/-- The header of a successful parse result (empty on error); used to name
the components of concrete parses. -/
def okHeader (r : Except ParseError (Header × List Turn)) : Header :=
  match r with
  | Except.ok p => p.1
  | Except.error _ => []

/-- The turn list of a successful parse result (empty on error). -/
def okTurns (r : Except ParseError (Header × List Turn)) : List Turn :=
  match r with
  | Except.ok p => p.2
  | Except.error _ => []

/-- The string stored in a header under a key, defaulting to empty. -/
def getStr (h : Header) (k : Str) : Str := (getStrOpt h k).getD []

/-- The first turn of a parse result (a dummy turn on error or no turns). -/
def turn0 (r : Except ParseError (Header × List Turn)) : Turn :=
  (okTurns r).headD ⟨0, [], [], [], []⟩

/-- A document whose table has one client dialogue row. -/
def docClientRow : List Table :=
  [[[⟨["Клиент".toList]⟩, ⟨["12:00".toList]⟩, ⟨["hi".toList]⟩]]]

/-- A document whose table has one employee dialogue row. -/
def docEmployeeRow : List Table :=
  [[[⟨["Сотрудник".toList]⟩, ⟨["10:01".toList]⟩, ⟨["ok then".toList]⟩]]]

/-- A document whose table has one row that is neither a banner, nor a
label/value, nor a dialogue row - so zero dialogue rows. -/
def docNoDialogue : List Table := [[[⟨["x".toList]⟩]]]

/-- A document whose table has a single label/value row and zero dialogue
rows. -/
def docLabelOnly : List Table :=
  [[[⟨["Кто звонил:".toList]⟩, ⟨["Alice".toList]⟩]]]

/-- A document with a dialogue row whose timestamp cell contains an
internal newline that survives `strip`. -/
def docNewlineTimestamp : List Table :=
  [[[⟨["Клиент".toList]⟩, ⟨["a\nb".toList]⟩, ⟨["hi".toList]⟩]]]

/-- A document with a dialogue row whose first-cell text strictly extends
the employee role marker. -/
def docRolePrefixed : List Table :=
  [[[⟨["СотрудникX".toList]⟩, ⟨["10:00".toList]⟩, ⟨["hi".toList]⟩]]]

/-- A table with one ignored row followed by one dialogue row. -/
def c6wTable : Table :=
  [[⟨["y".toList]⟩], [⟨["Сотрудник".toList]⟩, ⟨["t1".toList]⟩, ⟨["w".toList]⟩]]

/-- A banner row whose datetime field does not match the format. -/
def rowBadDatetime : Row :=
  [⟨["Запись разговоров".toList, "32.Foo.2021 10:00:00".toList]⟩]

/-! ### Lemmas about the header dictionary -/

theorem lookup_replace_of_any (d : Header) (k : Str) (v : HVal)
    (h : d.any (fun p => p.1 == k) = true) :
    List.lookup k (d.map (fun p => if p.1 == k then (k, v) else p)) = some v := by
  induction d with
  | nil => simp at h
  | cons p t ih =>
    obtain ⟨pk, pv⟩ := p
    rw [List.any_cons, Bool.or_eq_true] at h
    by_cases hp : (pk == k) = true
    · simp only [List.map_cons, if_pos hp]
      simp [List.lookup_cons]
    · have ht : t.any (fun p => p.1 == k) = true := by
        rcases h with h | h
        · exact absurd h hp
        · exact h
      have hne : pk ≠ k := by simpa [beq_iff_eq] using hp
      have hkpk : (k == pk) = false := beq_eq_false_iff_ne.mpr (Ne.symm hne)
      simp only [List.map_cons, if_neg hp]
      rw [List.lookup_cons]
      simp only [hkpk]
      exact ih ht

theorem lookup_append_of_not_any (d : Header) (k : Str) (v : HVal)
    (h : d.any (fun p => p.1 == k) = false) :
    List.lookup k (d ++ [(k, v)]) = some v := by
  induction d with
  | nil => simp [List.lookup_cons]
  | cons p t ih =>
    obtain ⟨pk, pv⟩ := p
    rw [List.any_cons, Bool.or_eq_false_iff] at h
    have hkpk : (k == pk) = false := by
      have hne : pk ≠ k := by simpa [beq_iff_eq] using h.1
      exact beq_eq_false_iff_ne.mpr (Ne.symm hne)
    rw [List.cons_append, List.lookup_cons]
    simp only [hkpk]
    exact ih h.2

theorem lookup_dictSet_self (d : Header) (k : Str) (v : HVal) :
    List.lookup k (dictSet d k v) = some v := by
  unfold dictSet
  by_cases h : d.any (fun p => p.1 == k) = true
  · rw [if_pos h]; exact lookup_replace_of_any d k v h
  · rw [if_neg h]
    exact lookup_append_of_not_any d k v (Bool.of_not_eq_true h)

theorem lookup_replace_ne (d : Header) (k k2 : Str) (v : HVal) (h : k2 ≠ k) :
    List.lookup k2 (d.map (fun p => if p.1 == k then (k, v) else p)) =
      List.lookup k2 d := by
  induction d with
  | nil => simp
  | cons p t ih =>
    obtain ⟨pk, pv⟩ := p
    by_cases hp : (pk == k) = true
    · have hpk : pk = k := by simpa [beq_iff_eq] using hp
      have h2 : (k2 == k) = false := beq_eq_false_iff_ne.mpr h
      simp only [List.map_cons, if_pos hp]
      rw [List.lookup_cons, List.lookup_cons]
      subst hpk
      simp only [h2]
      exact ih
    · simp only [List.map_cons, if_neg hp]
      rw [List.lookup_cons, List.lookup_cons]
      cases hk2 : (k2 == pk) with
      | true => rfl
      | false => exact ih

theorem lookup_append_ne (d : Header) (k k2 : Str) (v : HVal) (h : k2 ≠ k) :
    List.lookup k2 (d ++ [(k, v)]) = List.lookup k2 d := by
  induction d with
  | nil =>
    have h2 : (k2 == k) = false := beq_eq_false_iff_ne.mpr h
    simp [List.lookup_cons, h2]
  | cons p t ih =>
    obtain ⟨pk, pv⟩ := p
    rw [List.cons_append, List.lookup_cons, List.lookup_cons]
    cases hk2 : (k2 == pk) with
    | true => rfl
    | false => exact ih

theorem lookup_dictSet_ne (d : Header) (k k2 : Str) (v : HVal) (h : k2 ≠ k) :
    List.lookup k2 (dictSet d k v) = List.lookup k2 d := by
  unfold dictSet
  by_cases hany : d.any (fun p => p.1 == k) = true
  · rw [if_pos hany]; exact lookup_replace_ne d k k2 v h
  · rw [if_neg hany]; exact lookup_append_ne d k k2 v h

/-! ### Lemmas about the string primitives -/

theorem pySplitAux_single (c : Char) :
    ∀ (fuel : Nat) (s : Str), s.length ≤ fuel →
      pySplitAux c [] fuel s = s.splitOn c := by
  intro fuel
  induction fuel with
  | zero =>
    intro s hs
    have hnil : s = [] := List.eq_nil_of_length_eq_zero (Nat.le_zero.mp hs)
    subst hnil
    rfl
  | succ f ih =>
    intro s hs
    cases s with
    | nil => rfl
    | cons x rest =>
      have hlen : rest.length ≤ f := by
        simpa [Nat.succ_le_succ_iff] using hs
      simp only [pySplitAux]
      by_cases hx : x = c
      · rw [if_pos ⟨hx, by simp [List.isPrefixOf]⟩]
        simp only [List.length_nil, List.drop_zero]
        rw [ih rest hlen]
        simp [List.splitOn, List.splitOnP_cons, hx]
      · rw [if_neg (fun hh => hx hh.1)]
        have hne := List.splitOnP_ne_nil (fun a => a == c) rest
        rw [ih rest hlen]
        cases h' : rest.splitOn c with
        | nil => exact absurd h' (by simpa [List.splitOn] using hne)
        | cons l ls =>
          have hxc : (x == c) = false := beq_eq_false_iff_ne.mpr hx
          simp [List.splitOn, List.splitOnP_cons, hxc] at h' ⊢
          simp [h', List.modifyHead]

theorem pySplit_single (c : Char) (s : Str) : pySplit [c] s = s.splitOn c :=
  pySplitAux_single c s.length s le_rfl

theorem pySplitlinesAux_mem (fuel : Nat) :
    ∀ (s l : Str), l ∈ pySplitlinesAux fuel s → ∀ ch ∈ l, ch ≠ '\n' ∧ ch ≠ '\r' := by
  induction fuel with
  | zero =>
    intro s l hl
    cases s <;> simp [pySplitlinesAux] at hl
  | succ f ih =>
    intro s l hl ch hch
    cases s with
    | nil => simp [pySplitlinesAux] at hl
    | cons x rest =>
      simp only [pySplitlinesAux] at hl
      by_cases hx : x = '\n'
      · rw [if_pos hx] at hl
        rcases List.mem_cons.mp hl with h | h
        · subst h; simp at hch
        · exact ih rest l h ch hch
      · rw [if_neg hx] at hl
        by_cases hr : x = '\r'
        · rw [if_pos hr] at hl
          split at hl
          · rcases List.mem_cons.mp hl with h | h
            · subst h; simp at hch
            · exact ih _ l h ch hch
          · rcases List.mem_cons.mp hl with h | h
            · subst h; simp at hch
            · exact ih rest l h ch hch
        · rw [if_neg hr] at hl
          split at hl
          · rename_i hrec
            rcases List.mem_cons.mp hl with h | h
            · subst h
              rcases List.mem_cons.mp hch with h2 | h2
              · subst h2; exact ⟨hx, hr⟩
              · simp at h2
            · simp at h
          · rename_i l0 ls hrec
            rcases List.mem_cons.mp hl with h | h
            · subst h
              rcases List.mem_cons.mp hch with h2 | h2
              · subst h2; exact ⟨hx, hr⟩
              · have hl0 : l0 ∈ pySplitlinesAux f rest := by
                  rw [hrec]; exact List.mem_cons_self l0 ls
                exact ih rest l0 hl0 ch h2
            · have hls : l ∈ pySplitlinesAux f rest := by
                rw [hrec]; exact List.mem_cons_of_mem l0 h
              exact ih rest l hls ch hch

theorem pySplitlines_mem (s l : Str) (hl : l ∈ pySplitlines s) :
    ∀ ch ∈ l, ch ≠ '\n' ∧ ch ≠ '\r' :=
  pySplitlinesAux_mem s.length s l hl

theorem mem_pyStrip (s : Str) (c : Char) (h : c ∈ pyStrip s) : c ∈ s := by
  unfold pyStrip at h
  rw [List.mem_reverse] at h
  have h1 := (List.dropWhile_sublist isPySpace).mem h
  rw [List.mem_reverse] at h1
  exact (List.dropWhile_sublist isPySpace).mem h1

theorem intercalate_singleton (sep a : Str) : List.intercalate sep [a] = a := by
  simp [List.intercalate, List.intersperse]

theorem intercalate_cons2 (sep a b : Str) (t : List Str) :
    List.intercalate sep (a :: b :: t) = a ++ sep ++ List.intercalate sep (b :: t) := by
  simp [List.intercalate, List.intersperse]

theorem mem_intercalate_sepChar (x : Char) (L : List Str) (c : Char)
    (h : c ∈ List.intercalate [x] L) : c = x ∨ ∃ l ∈ L, c ∈ l := by
  induction L with
  | nil => simp [List.intercalate] at h
  | cons a t ih =>
    cases t with
    | nil =>
      rw [intercalate_singleton] at h
      right; exact ⟨a, by simp, h⟩
    | cons b t2 =>
      rw [intercalate_cons2] at h
      rcases List.mem_append.mp h with h1 | h2
      · rcases List.mem_append.mp h1 with ha | hx
        · right; exact ⟨a, by simp, ha⟩
        · left; simpa using hx
      · rcases ih h2 with h3 | ⟨l, hl, hcl⟩
        · left; exact h3
        · right; exact ⟨l, List.mem_cons_of_mem a hl, hcl⟩

theorem natToCharsAux_mem (fuel : Nat) :
    ∀ (n : Nat) (acc : Str), (∀ c ∈ acc, c.isDigit = true) →
      ∀ c ∈ natToCharsAux fuel n acc, c.isDigit = true := by
  induction fuel with
  | zero => intro n acc hacc c hc; exact hacc c hc
  | succ f ih =>
    intro n acc hacc c hc
    have hd : (Char.ofNat (48 + n % 10)).isDigit = true := by
      have h10 : n % 10 < 10 := Nat.mod_lt _ (by norm_num)
      revert h10
      generalize n % 10 = m
      intro h10
      interval_cases m <;> decide
    simp only [natToCharsAux] at hc
    split at hc
    · rcases List.mem_cons.mp hc with h | h
      · subst h; exact hd
      · exact hacc c h
    · refine ih (n / 10) _ ?_ c hc
      intro c2 hc2
      rcases List.mem_cons.mp hc2 with h | h
      · subst h; exact hd
      · exact hacc c2 h

theorem natToChars_digits (n : Nat) : ∀ c ∈ natToChars n, c.isDigit = true :=
  natToCharsAux_mem (n + 1) n [] (by simp)

theorem _clean_no_newline (td : Cell) : ∀ c ∈ _clean td, c ≠ '\n' := by
  intro c hc
  unfold _clean at hc
  rcases mem_intercalate_sepChar ' ' _ c hc with h | ⟨l, hl, hcl⟩
  · subst h; decide
  · rw [List.mem_filter] at hl
    rcases List.mem_map.mp hl.1 with ⟨l0, hl0, rfl⟩
    have hmem := mem_pyStrip l0 c hcl
    exact (pySplitlines_mem _ l0 hl0 c hmem).1

/-! ### Loop invariants -/

theorem renderAll_length (d : List DialogueEntry) : ∀ i, (renderAll i d).length = d.length := by
  induction d with
  | nil => intro i; rfl
  | cons e t ih => intro i; simp [renderAll, ih]

theorem renderAll_append (d1 d2 : List DialogueEntry) :
    ∀ i, renderAll i (d1 ++ d2) = renderAll i d1 ++ renderAll (i + d1.length) d2 := by
  induction d1 with
  | nil => intro i; simp [renderAll]
  | cons e t ih =>
    intro i
    simp only [List.cons_append, renderAll, List.length_cons, List.append_eq]
    rw [ih (i + 1)]
    have harith : i + 1 + t.length = i + (t.length + 1) := by omega
    rw [harith]

theorem renderAll_get (d : List DialogueEntry) :
    ∀ (i j : Nat) (h : j < (renderAll i d).length) (h2 : j < d.length),
      (renderAll i d).get ⟨j, h⟩ = renderEntry (i + j) (d.get ⟨j, h2⟩) := by
  induction d with
  | nil => intro i j h h2; simp at h2
  | cons e t ih =>
    intro i j h h2
    cases j with
    | zero => simp [renderAll]
    | succ j2 =>
      have h3 : j2 < (renderAll (i + 1) t).length := by
        simpa [renderAll] using h
      have h4 : j2 < t.length := by simpa using h2
      simp only [renderAll, List.get_cons_succ]
      rw [ih (i + 1) j2 h3 h4]
      congr 1
      omega

theorem mkEntry_role_ru (tds : Row) : (mkEntry tds).role_ru = rowText tds := rfl

theorem mkEntry_role_en (tds : Row) :
    (mkEntry tds).role_en =
      if rowText tds = clientMarker then "client".toList else "employee".toList := rfl

theorem mkEntry_timestamp (tds : Row) :
    (mkEntry tds).timestamp_local = pyStrip (Cell.text (tds.getD 1 cellDefault)) := rfl

theorem mkEntry_text (tds : Row) : (mkEntry tds).text = _clean (tds.getD 2 cellDefault) := rfl

theorem mkEntry_entryOK (tds : Row) (h : dialogueGuard tds = true) :
    entryOK (mkEntry tds) := by
  unfold dialogueGuard at h
  rw [Bool.and_eq_true, Bool.or_eq_true] at h
  refine ⟨?_, ?_, ?_, ?_⟩
  · rw [mkEntry_role_en, mkEntry_role_ru]
    by_cases htext : rowText tds = clientMarker
    · rw [if_pos htext]
      exact ⟨fun _ => htext, fun _ => rfl⟩
    · rw [if_neg htext]
      exact ⟨fun h1 => absurd h1 (by decide), fun h2 => absurd h2 htext⟩
  · rw [mkEntry_role_ru]
    intro hne
    rw [mkEntry_role_en, if_neg hne]
  · rw [mkEntry_role_ru]; exact h.2
  · rw [mkEntry_text]; exact _clean_no_newline _

theorem isDialogueRow_guard (tds : Row) (h : isDialogueRow tds = true) :
    dialogueGuard tds = true := by
  unfold isDialogueRow at h
  simp only [Bool.and_eq_true] at h
  exact h.2

theorem processRow_dialogue (st : ParseState) (tds : Row) (h : isDialogueRow tds = true) :
    processRow st tds =
      { st with
          dialogue := st.dialogue ++ [mkEntry tds]
          conversationLines :=
            st.conversationLines ++
              [renderEntry st.conversationLines.length (mkEntry tds)] } := by
  unfold isDialogueRow at h
  simp only [Bool.and_eq_true, Bool.not_eq_true'] at h
  obtain ⟨⟨⟨h1, h2⟩, h3⟩, h4⟩ := h
  unfold processRow
  rw [if_neg (by simp [h1]), if_neg (by simp [h2]), if_neg (by simp [h3]), if_pos h4]

theorem processRow_not_dialogue (st : ParseState) (tds : Row) (h : isDialogueRow tds = false) :
    (processRow st tds).dialogue = st.dialogue ∧
    (processRow st tds).conversationLines = st.conversationLines := by
  unfold processRow
  by_cases h1 : tds.isEmpty = true
  · rw [if_pos h1]; exact ⟨rfl, rfl⟩
  · rw [if_neg h1]
    by_cases h2 : isBannerRow tds = true
    · rw [if_pos h2]
      split <;> exact ⟨rfl, rfl⟩
    · rw [if_neg h2]
      by_cases h3 : isLabelValueRow tds = true
      · rw [if_pos h3]; exact ⟨rfl, rfl⟩
      · rw [if_neg h3]
        have h1B := Bool.of_not_eq_true h1
        have h2B := Bool.of_not_eq_true h2
        have h3B := Bool.of_not_eq_true h3
        have h4 : dialogueGuard tds = false := by
          unfold isDialogueRow at h
          simpa [h1B, h2B, h3B] using h
        rw [if_neg (by simp [h4])]
        exact ⟨rfl, rfl⟩

theorem stateOK_processRow (st : ParseState) (tds : Row) (h : stateOK st) :
    stateOK (processRow st tds) := by
  cases hd : isDialogueRow tds with
  | false =>
    obtain ⟨e1, e2⟩ := processRow_not_dialogue st tds hd
    constructor
    · rw [e1, e2]; exact h.1
    · rw [e1]; exact h.2
  | true =>
    rw [processRow_dialogue st tds hd]
    constructor
    · show st.conversationLines ++ [renderEntry st.conversationLines.length (mkEntry tds)] =
        renderAll 0 (st.dialogue ++ [mkEntry tds])
      rw [renderAll_append, h.1]
      simp only [renderAll, Nat.zero_add]
      congr 2
      rw [renderAll_length]
    · intro e he
      rcases List.mem_append.mp he with h5 | h5
      · exact h.2 e h5
      · have he2 : e = mkEntry tds := by simpa using h5
        subst he2
        exact mkEntry_entryOK tds (isDialogueRow_guard tds hd)

theorem stateOK_foldl (rows : List Row) :
    ∀ st, stateOK st → stateOK (rows.foldl processRow st) := by
  induction rows with
  | nil => intro st h; exact h
  | cons r t ih => intro st h; exact ih _ (stateOK_processRow st r h)

theorem stateOK_init : stateOK initState :=
  ⟨rfl, by intro e he; simp [initState] at he⟩

theorem foldl_dialogue_count (rows : List Row) :
    ∀ st, (rows.foldl processRow st).dialogue.length =
      st.dialogue.length + (rows.filter isDialogueRow).length := by
  induction rows with
  | nil => intro st; simp
  | cons r t ih =>
    intro st
    rw [List.foldl_cons]
    cases hd : isDialogueRow r with
    | true =>
      rw [List.filter_cons_of_pos hd, ih, processRow_dialogue st r hd]
      simp only [List.length_append, List.length_cons, List.length_nil]
      omega
    | false =>
      rw [List.filter_cons_of_neg (by simp [hd]), ih, (processRow_not_dialogue st r hd).1]

theorem assignTurnIdx_length (d : List DialogueEntry) :
    ∀ i, (assignTurnIdx i d).length = d.length := by
  induction d with
  | nil => intro i; rfl
  | cons e t ih => intro i; simp [assignTurnIdx, ih]

theorem assignTurnIdx_get (d : List DialogueEntry) :
    ∀ (i j : Nat) (h : j < (assignTurnIdx i d).length) (h2 : j < d.length),
      (assignTurnIdx i d).get ⟨j, h⟩ =
        { turn_index := i + j, role_ru := (d.get ⟨j, h2⟩).role_ru,
          role_en := (d.get ⟨j, h2⟩).role_en,
          timestamp_local := (d.get ⟨j, h2⟩).timestamp_local,
          text := (d.get ⟨j, h2⟩).text } := by
  induction d with
  | nil => intro i j h h2; simp at h2
  | cons e t ih =>
    intro i j h h2
    cases j with
    | zero => simp [assignTurnIdx]
    | succ j2 =>
      have h3 : j2 < (assignTurnIdx (i + 1) t).length := by
        simpa [assignTurnIdx] using h
      have h4 : j2 < t.length := by simpa using h2
      simp only [assignTurnIdx, List.get_cons_succ]
      rw [ih (i + 1) j2 h3 h4]
      have : i + 1 + j2 = i + (j2 + 1) := by omega
      rw [this]

theorem assignTurnIdx_mem (d : List DialogueEntry) :
    ∀ (i : Nat) (t : Turn), t ∈ assignTurnIdx i d →
      ∃ e ∈ d, t.role_ru = e.role_ru ∧ t.role_en = e.role_en ∧
        t.timestamp_local = e.timestamp_local ∧ t.text = e.text := by
  induction d with
  | nil => intro i t ht; simp [assignTurnIdx] at ht
  | cons e es ih =>
    intro i t ht
    rcases List.mem_cons.mp ht with h | h
    · subst h
      exact ⟨e, List.mem_cons_self e es, rfl, rfl, rfl, rfl⟩
    · obtain ⟨e2, he2, hfields⟩ := ih (i + 1) t h
      exact ⟨e2, List.mem_cons_of_mem e he2, hfields⟩

/-! ### Characterizing the outcomes of `parse_call_html` -/

theorem parse_cons (table : Table) (rest : List Table) :
    parse_call_html (table :: rest) =
      if (table.foldl processRow initState).dialogue.isEmpty then
        Except.error ParseError.pandasKeyError
      else
        Except.ok (finalHeader (table.foldl processRow initState),
          assignTurnIdx 1 (table.foldl processRow initState).dialogue) := rfl

theorem parse_ok_shape (doc : List Table) (hdr : Header) (turns : List Turn)
    (h : parse_call_html doc = Except.ok (hdr, turns)) :
    ∃ table rest, doc = table :: rest ∧
      (table.foldl processRow initState).dialogue ≠ [] ∧
      hdr = finalHeader (table.foldl processRow initState) ∧
      turns = assignTurnIdx 1 (table.foldl processRow initState).dialogue := by
  cases doc with
  | nil => simp [parse_call_html] at h
  | cons table rest =>
    refine ⟨table, rest, rfl, ?_, ?_, ?_⟩ <;>
    · rw [parse_cons] at h
      split at h
      · cases h
      · rename_i hne
        rw [Except.ok.injEq, Prod.mk.injEq] at h
        first
        | (intro hcontra
           exact hne (by simp [hcontra]))
        | exact h.1.symm
        | exact h.2.symm

/-! ### Whitespace facts for the text normalizer -/

theorem dropWhile_head_false (p : Char → Bool) : ∀ (l : Str) (c : Char) (r : Str),
    l.dropWhile p = c :: r → p c = false := by
  intro l
  induction l with
  | nil => intro c r h; simp at h
  | cons x xs ih =>
    intro c r h
    rw [List.dropWhile_cons] at h
    by_cases hx : p x = true
    · rw [if_pos hx] at h; exact ih c r h
    · rw [if_neg hx] at h
      injection h with h1 h2
      subst h1
      exact Bool.of_not_eq_true hx

theorem pyStrip_last_not_space (s : Str) (c : Char) (r : Str)
    (h : (pyStrip s).reverse = c :: r) : isPySpace c = false := by
  unfold pyStrip at h
  rw [List.reverse_reverse] at h
  exact dropWhile_head_false isPySpace _ c r h

theorem pyStrip_head_not_space (s : Str) (c : Char) (r : Str)
    (h : pyStrip s = c :: r) : isPySpace c = false := by
  obtain ⟨w, hw⟩ :=
    List.dropWhile_suffix (l := (s.dropWhile isPySpace).reverse) isPySpace
  have hw2 := congrArg List.reverse hw
  rw [List.reverse_append, List.reverse_reverse] at hw2
  unfold pyStrip at h
  rw [h] at hw2
  have hcons : s.dropWhile isPySpace = c :: (r ++ w.reverse) := by
    rw [← hw2]; simp
  exact dropWhile_head_false isPySpace s c _ hcons

theorem pyStrip_eq_self (r : Str)
    (h1 : ∀ c t, r = c :: t → isPySpace c = false)
    (h2 : ∀ c t, r.reverse = c :: t → isPySpace c = false) :
    pyStrip r = r := by
  unfold pyStrip
  have e1 : r.dropWhile isPySpace = r := by
    cases r with
    | nil => rfl
    | cons c t => rw [List.dropWhile_cons, h1 c t rfl]; simp
  rw [e1]
  have e2 : r.reverse.dropWhile isPySpace = r.reverse := by
    cases hr : r.reverse with
    | nil => simp
    | cons c t => rw [List.dropWhile_cons, h2 c t hr]; simp
  rw [e2, List.reverse_reverse]

theorem intercalate_head_not_ws : ∀ (segs : List Str),
    (∀ sg ∈ segs, sg ≠ [] ∧ (∀ c t, sg = c :: t → isPySpace c = false)) →
    ∀ c t, List.intercalate [' '] segs = c :: t → isPySpace c = false := by
  intro segs
  induction segs with
  | nil => intro _ c t h; simp [List.intercalate] at h
  | cons a rest ih =>
    intro hseg c t h
    cases rest with
    | nil =>
      rw [intercalate_singleton] at h
      exact (hseg a (by simp)).2 c t h
    | cons b rest2 =>
      rw [intercalate_cons2] at h
      obtain ⟨ha, ha2⟩ := hseg a (by simp)
      cases a with
      | nil => exact absurd rfl ha
      | cons a0 at2 =>
        simp only [List.cons_append] at h
        injection h with hh1 hh2
        rw [← hh1]
        exact ha2 a0 at2 rfl

theorem intercalate_nonempty_of_head (b : Str) (rest2 : List Str) (hb : b ≠ []) :
    List.intercalate [' '] (b :: rest2) ≠ [] := by
  cases rest2 with
  | nil => rw [intercalate_singleton]; exact hb
  | cons d r3 =>
    rw [intercalate_cons2]
    intro hcontra
    rcases List.append_eq_nil.mp hcontra with ⟨h1, -⟩
    rcases List.append_eq_nil.mp h1 with ⟨-, h3⟩
    exact absurd h3 (by simp)

theorem intercalate_last_not_ws : ∀ (segs : List Str),
    (∀ sg ∈ segs, sg ≠ [] ∧ (∀ c t, sg.reverse = c :: t → isPySpace c = false)) →
    ∀ c t, (List.intercalate [' '] segs).reverse = c :: t → isPySpace c = false := by
  intro segs
  induction segs with
  | nil => intro _ c t h; simp [List.intercalate] at h
  | cons a rest ih =>
    intro hseg c t h
    cases rest with
    | nil =>
      rw [intercalate_singleton] at h
      exact (hseg a (by simp)).2 c t h
    | cons b rest2 =>
      rw [intercalate_cons2, List.reverse_append] at h
      have hb := hseg b (by simp)
      have hI : List.intercalate [' '] (b :: rest2) ≠ [] :=
        intercalate_nonempty_of_head b rest2 hb.1
      cases hIr : (List.intercalate [' '] (b :: rest2)).reverse with
      | nil => exact absurd (by simpa using hIr) hI
      | cons i0 irest =>
        rw [hIr] at h
        simp only [List.cons_append] at h
        injection h with hh1 hh2
        rw [← hh1]
        exact ih (fun sg hsg => hseg sg (List.mem_cons_of_mem a hsg)) i0 irest hIr

theorem cleanSegs_ok (td : Cell) :
    ∀ sg ∈ ((pySplitlines (td.getTextStrip ['\n'])).map pyStrip).filter (· ≠ []),
      sg ≠ [] ∧ (∀ c t, sg = c :: t → isPySpace c = false) ∧
        (∀ c t, sg.reverse = c :: t → isPySpace c = false) := by
  intro sg hsg
  rw [List.mem_filter] at hsg
  obtain ⟨hmem, hne⟩ := hsg
  rcases List.mem_map.mp hmem with ⟨l0, hl0, rfl⟩
  have hne2 : pyStrip l0 ≠ [] := of_decide_eq_true hne
  exact ⟨hne2, fun c t h => pyStrip_head_not_space l0 c t h,
    fun c t h => pyStrip_last_not_space l0 c t h⟩

theorem pyStrip_clean (td : Cell) : pyStrip (_clean td) = _clean td := by
  unfold _clean
  refine pyStrip_eq_self _ ?_ ?_
  · exact intercalate_head_not_ws _
      (fun sg hsg => ⟨(cleanSegs_ok td sg hsg).1, (cleanSegs_ok td sg hsg).2.1⟩)
  · exact intercalate_last_not_ws _
      (fun sg hsg => ⟨(cleanSegs_ok td sg hsg).1, (cleanSegs_ok td sg hsg).2.2⟩)

/-! ### Transcript lines and the conversation field -/

theorem renderedLines_assign (d : List DialogueEntry) :
    ∀ i j, renderedLines j (assignTurnIdx i d) = renderAll j d := by
  induction d with
  | nil => intro i j; rfl
  | cons e t ih =>
    intro i j
    simp only [assignTurnIdx, renderedLines, renderAll, renderEntry]
    rw [ih (i + 1) (j + 1)]

theorem not_mem_append_chr (c : Char) (a b : Str) (ha : c ∉ a) (hb : c ∉ b) :
    c ∉ a ++ b := by
  intro h
  rcases List.mem_append.mp h with h | h
  · exact ha h
  · exact hb h

theorem renderEntry_no_newline (i : Nat) (e : DialogueEntry)
    (h1 : '\n' ∉ e.role_ru) (h2 : '\n' ∉ e.timestamp_local)
    (h3 : ∀ c ∈ e.text, c ≠ '\n') : '\n' ∉ renderEntry i e := by
  unfold renderEntry
  refine not_mem_append_chr _ _ _
    (not_mem_append_chr _ _ _
      (not_mem_append_chr _ _ _
        (not_mem_append_chr _ _ _
          (not_mem_append_chr _ _ _
            (not_mem_append_chr _ _ _ ?_ ?_) ?_) ?_) ?_) ?_) ?_
  · intro h; exact absurd (natToChars_digits i '\n' h) (by decide)
  · decide
  · exact h2
  · decide
  · exact h1
  · decide
  · intro h; exact h3 '\n' h rfl

theorem getStrOpt_finalHeader_conversation (st : ParseState) :
    getStrOpt (finalHeader st) conversationKey =
      some (List.intercalate ['\n'] st.conversationLines) := by
  unfold getStrOpt finalHeader
  rw [lookup_dictSet_self]

theorem split_join_lines (L : List Str) (hne : L ≠ []) (hnl : ∀ l ∈ L, '\n' ∉ l) :
    pySplit ['\n'] (List.intercalate ['\n'] L) = L := by
  rw [pySplit_single]
  exact List.splitOn_intercalate L '\n' hnl hne

theorem duration_eq_spec (raw : Option Str) :
    _duration_to_seconds raw = durationSpecParse raw := by
  cases raw with
  | none => rfl
  | some r =>
    by_cases hr : r = []
    · subst hr; rfl
    · simp only [_duration_to_seconds, durationSpecParse, if_neg hr]

/-! ### The claims -/

/-- C1: the claim says a document with a table but zero dialogue rows
returns normally with a one-row header, an empty turn sequence and an
empty `conversation`.  The code instead raises: with `dialogue == []`,
`pd.DataFrame([])` has no columns, and `.loc[:, ["turn_index", "role_ru",
"role_en", "timestamp_local", "text"]]` (line 130) raises `KeyError` for
the missing labels.  This theorem evaluates the parser at such a document
and observes the error. -/
theorem c1_zero_dialogue_key_error :
    parse_call_html docNoDialogue = Except.error ParseError.pandasKeyError := by
  decide

/-- C7: `parse_call_html` fails with the no-table error exactly on
documents with no table, and a document with at least one table never
produces that error; the `Except` result carries no partial data. -/
theorem c7_no_table_error_iff (doc : List Table) :
    parse_call_html doc = Except.error ParseError.noTableFound ↔ doc = [] := by
  cases doc with
  | nil => simp [parse_call_html]
  | cons table rest =>
    rw [parse_cons]
    constructor
    · intro h
      exfalso
      split at h <;> simp at h
    · intro h
      simp at h

/-- C3: the duration parser is exactly the algorithm the spec describes
(strip to digits/colons, split on colon, drop empty segments, combine 1-3
numeric segments, null otherwise), and the spec's example values hold.
Both sides are total functions, so no error is ever raised. -/
theorem c3_duration_algorithm :
    (∀ raw, _duration_to_seconds raw = durationSpecParse raw) ∧
    _duration_to_seconds (some "01:02:03".toList) = some 3723 ∧
    _duration_to_seconds (some "12:05".toList) = some 725 ∧
    _duration_to_seconds (some "45".toList) = some 45 ∧
    _duration_to_seconds (some "".toList) = none ∧
    _duration_to_seconds (some "abc".toList) = none ∧
    _duration_to_seconds none = none :=
  ⟨duration_eq_spec, by decide, by decide, by decide, by decide, by decide, rfl⟩

/-- C10: whenever the cleaned input splits into four or more non-empty
colon-separated segments, the duration parser returns `none`. -/
theorem c10_four_or_more_segments_null (s : Str)
    (h4 : 4 ≤ ((pySplit [':'] (s.filter (fun c => c.isDigit || c == ':'))).filter
      (· ≠ [])).length) :
    _duration_to_seconds (some s) = none := by
  rw [duration_eq_spec]
  simp only [durationSpecParse]
  have hlen : 4 ≤ (((pySplit [':'] (s.filter (fun c => c.isDigit || c == ':'))).filter
      (· ≠ [])).map digitsToNat).length := by
    rw [List.length_map]; exact h4
  generalize ((pySplit [':'] (s.filter (fun c => c.isDigit || c == ':'))).filter
      (· ≠ [])).map digitsToNat = parts at hlen ⊢
  rcases parts with _ | ⟨a, _ | ⟨b, _ | ⟨c, _ | ⟨d, t⟩⟩⟩⟩
  · simp at hlen
  · simp at hlen
  · simp at hlen
  · simp at hlen
  · rfl

/-- C10 witness: `"1:2:3:4"` cleans to four segments, and the parser
returns `none` on it. -/
theorem c10_witness :
    4 ≤ ((pySplit [':'] ("1:2:3:4".toList.filter (fun c => c.isDigit || c == ':'))).filter
      (· ≠ [])).length ∧
    _duration_to_seconds (some "1:2:3:4".toList) = none :=
  ⟨by decide, c10_four_or_more_segments_null "1:2:3:4".toList (by decide)⟩

/-- C9: `_clean` returns a string with no leading or trailing whitespace
(stripping it is the identity) that is the single-space join of the
non-empty trimmed former lines (each segment is non-empty and already
trimmed), and the spec's example holds: a cell containing
`"  hello \n\n world  "` normalizes to `"hello world"`. -/
theorem c9_clean_normalizes :
    (∀ td : Cell,
      pyStrip (_clean td) = _clean td ∧
      ∃ segs : List Str, _clean td = List.intercalate [' '] segs ∧
        ∀ sg ∈ segs, sg ≠ [] ∧ pyStrip sg = sg) ∧
    _clean ⟨["  hello \n\n world  ".toList]⟩ = "hello world".toList := by
  constructor
  · intro td
    refine ⟨pyStrip_clean td,
      ((pySplitlines (td.getTextStrip ['\n'])).map pyStrip).filter (· ≠ []), rfl, ?_⟩
    intro sg hsg
    obtain ⟨hne0, hhead, hlast⟩ := cleanSegs_ok td sg hsg
    exact ⟨hne0, pyStrip_eq_self sg hhead hlast⟩
  · decide

/-- C4 counterexample: the claim says every returned turn's `role_ru` is
exactly one of the two role markers.  But the loop stores the whole
first-cell text and only checks a prefix: a row whose first cell reads
`"СотрудникX"` is accepted as a dialogue row and its `role_ru` is
`"СотрудникX"`, which is neither marker. -/
theorem c4_counterexample_role_text :
    (okTurns (parse_call_html docRolePrefixed)).map Turn.role_ru =
      ["СотрудникX".toList] ∧
    "СотрудникX".toList ≠ employeeMarker ∧ "СотрудникX".toList ≠ clientMarker := by
  refine ⟨by decide, by decide, by decide⟩

/-- C4 (amended): every returned turn's `role_ru` starts with one of the
two role markers (it is the verbatim first-cell text, which the dialogue
guard only requires to begin with a marker). -/
theorem c4_role_ru_starts_with_role_marker (doc : List Table) (hdr : Header)
    (turns : List Turn) (hok : parse_call_html doc = Except.ok (hdr, turns)) :
    ∀ t ∈ turns,
      employeeMarker.isPrefixOf t.role_ru = true ∨
      clientMarker.isPrefixOf t.role_ru = true := by
  intro t ht
  obtain ⟨table, rest, rfl, hne, hhdr, hturns⟩ := parse_ok_shape _ hdr turns hok
  subst hturns
  have hst := stateOK_foldl table initState stateOK_init
  obtain ⟨e, he, hru, hen, hts, htx⟩ := assignTurnIdx_mem _ 1 t ht
  rw [hru]
  exact (hst.2 e he).2.2.1

/-- C4 witness: the amended statement at the concrete document. -/
theorem c4_witness :
    employeeMarker.isPrefixOf (turn0 (parse_call_html docRolePrefixed)).role_ru = true ∨
    clientMarker.isPrefixOf (turn0 (parse_call_html docRolePrefixed)).role_ru = true :=
  c4_role_ru_starts_with_role_marker docRolePrefixed
    (okHeader (parse_call_html docRolePrefixed))
    (okTurns (parse_call_html docRolePrefixed)) (by decide)
    (turn0 (parse_call_html docRolePrefixed)) (by decide)

/-- C5: for every returned turn, `role_en` is `"client"` exactly when
`role_ru` equals the client marker, and `"employee"` otherwise. -/
theorem c5_role_en_client_iff (doc : List Table) (hdr : Header)
    (turns : List Turn) (hok : parse_call_html doc = Except.ok (hdr, turns)) :
    ∀ t ∈ turns,
      (t.role_en = "client".toList ↔ t.role_ru = clientMarker) ∧
      (t.role_ru ≠ clientMarker → t.role_en = "employee".toList) := by
  intro t ht
  obtain ⟨table, rest, rfl, hne, hhdr, hturns⟩ := parse_ok_shape _ hdr turns hok
  subst hturns
  have hst := stateOK_foldl table initState stateOK_init
  obtain ⟨e, he, hru, hen, hts, htx⟩ := assignTurnIdx_mem _ 1 t ht
  rw [hru, hen]
  exact ⟨(hst.2 e he).1, (hst.2 e he).2.1⟩

/-- C5 witness: the statement at a concrete one-client-row document. -/
theorem c5_witness :
    ((turn0 (parse_call_html docClientRow)).role_en = "client".toList ↔
      (turn0 (parse_call_html docClientRow)).role_ru = clientMarker) ∧
    ((turn0 (parse_call_html docClientRow)).role_ru ≠ clientMarker →
      (turn0 (parse_call_html docClientRow)).role_en = "employee".toList) :=
  c5_role_en_client_iff docClientRow (okHeader (parse_call_html docClientRow))
    (okTurns (parse_call_html docClientRow)) (by decide)
    (turn0 (parse_call_html docClientRow)) (by decide)

/-- C6 counterexample: the claim includes N = 0, saying the returned turn
sequence then has zero entries; but on a table with a label/value row and
zero dialogue rows the parse raises the pandas `KeyError` instead of
returning. -/
theorem c6_counterexample_zero_dialogue :
    parse_call_html docLabelOnly = Except.error ParseError.pandasKeyError ∧
    (docLabelOnly.headD []).filter isDialogueRow = [] := by
  refine ⟨by decide, by decide⟩

/-- C6 (amended): for every document whose table contains N >= 1 dialogue
rows, with any other rows interspersed, the parse succeeds and returns
exactly N turns whose `turn_index` values are 1..N in encounter order. -/
theorem c6_turn_indices (table : Table) (rest : List Table)
    (hne : table.filter isDialogueRow ≠ []) :
    ∃ hdr turns, parse_call_html (table :: rest) = Except.ok (hdr, turns) ∧
      turns.length = (table.filter isDialogueRow).length ∧
      ∀ j (hj : j < turns.length), (turns.get ⟨j, hj⟩).turn_index = j + 1 := by
  have hcount := foldl_dialogue_count table initState
  have hlen : (table.foldl processRow initState).dialogue.length =
      (table.filter isDialogueRow).length := by
    simpa [initState] using hcount
  have hnonempty : (table.foldl processRow initState).dialogue ≠ [] := by
    intro hcontra
    rw [hcontra] at hlen
    exact hne (List.length_eq_zero.mp hlen.symm)
  refine ⟨finalHeader (table.foldl processRow initState),
    assignTurnIdx 1 (table.foldl processRow initState).dialogue, ?_, ?_, ?_⟩
  · rw [parse_cons, if_neg (by simpa [List.isEmpty_iff] using hnonempty)]
  · rw [assignTurnIdx_length]; exact hlen
  · intro j hj
    have hj2 : j < (table.foldl processRow initState).dialogue.length := by
      rw [← assignTurnIdx_length (table.foldl processRow initState).dialogue 1]
      exact hj
    rw [assignTurnIdx_get _ 1 j hj hj2]
    show 1 + j = j + 1
    omega

/-- C6 witness: one ignored row and one dialogue row give one turn with
`turn_index` 1. -/
theorem c6_witness :
    c6wTable.filter isDialogueRow ≠ [] ∧
    ∃ hdr turns, parse_call_html [c6wTable] = Except.ok (hdr, turns) ∧
      turns.length = (c6wTable.filter isDialogueRow).length ∧
      ∀ j (hj : j < turns.length), (turns.get ⟨j, hj⟩).turn_index = j + 1 :=
  ⟨by decide, c6_turn_indices c6wTable [] (by decide)⟩

/-- C8: a banner row with at least two separator-delimited fields whose
datetime string does not parse leaves `call_datetime = null` and keeps the
raw string in `call_datetime_raw`; and an unparsable datetime can never
fail a parse, since the only failures of `parse_call_html` are the
no-table error and the pandas `KeyError`. -/
theorem c8_unparsable_datetime_degrades :
    (∀ (st : ParseState) (tds : Row),
      tds.isEmpty = false →
      isBannerRow tds = true →
      1 < (pySplit SEPARATOR (rowText tds)).length →
      strptimeDbY ((pySplit SEPARATOR (rowText tds)).getD 1 []) = none →
      List.lookup callDatetimeKey (processRow st tds).header = some (HVal.dt none) ∧
      List.lookup callDatetimeRawKey (processRow st tds).header =
        some (HVal.str ((pySplit SEPARATOR (rowText tds)).getD 1 []))) ∧
    (∀ (doc : List Table) (e : ParseError),
      parse_call_html doc = Except.error e →
      e = ParseError.noTableFound ∨ e = ParseError.pandasKeyError) := by
  constructor
  · intro st tds h1 h2 h3 h4
    unfold processRow
    rw [if_neg (by simp [h1]), if_pos h2, if_pos h3]
    constructor
    · show List.lookup callDatetimeKey
        (dictSet (dictSet st.header callDatetimeRawKey
          (HVal.str ((pySplit SEPARATOR (rowText tds)).getD 1 [])))
          callDatetimeKey
          (HVal.dt (strptimeDbY ((pySplit SEPARATOR (rowText tds)).getD 1 [])))) =
        some (HVal.dt none)
      rw [lookup_dictSet_self, h4]
    · show List.lookup callDatetimeRawKey
        (dictSet (dictSet st.header callDatetimeRawKey
          (HVal.str ((pySplit SEPARATOR (rowText tds)).getD 1 [])))
          callDatetimeKey
          (HVal.dt (strptimeDbY ((pySplit SEPARATOR (rowText tds)).getD 1 [])))) =
        some (HVal.str ((pySplit SEPARATOR (rowText tds)).getD 1 []))
      rw [lookup_dictSet_ne _ _ _ _ (by decide), lookup_dictSet_self]
  · intro doc e h
    cases doc with
    | nil =>
      simp [parse_call_html] at h
      exact Or.inl h.symm
    | cons table rest =>
      rw [parse_cons] at h
      split at h
      · rw [Except.error.injEq] at h
        exact Or.inr h.symm
      · simp at h

/-- C8 witness: a concrete banner row carrying `"32.Foo.2021 10:00:00"`,
which `strptime` rejects; the state after the row holds a null
`call_datetime` and the raw string. -/
theorem c8_witness :
    List.lookup callDatetimeKey (processRow initState rowBadDatetime).header =
      some (HVal.dt none) ∧
    List.lookup callDatetimeRawKey (processRow initState rowBadDatetime).header =
      some (HVal.str "32.Foo.2021 10:00:00".toList) := by
  have h := c8_unparsable_datetime_degrades.1 initState rowBadDatetime
    (by decide) (by decide) (by decide) (by decide)
  refine ⟨h.1, ?_⟩
  rw [h.2]
  decide

/-- C2 counterexample: on a successfully parsed document whose dialogue
row has a timestamp cell with an internal newline, the `conversation`
field splits into 2 lines while the turn sequence has 1 entry - the
per-turn transcript line itself contains the embedded newline. -/
theorem c2_counterexample_newline :
    (parse_call_html docNewlineTimestamp).toOption.map
      (fun p => (p.2.length, (pySplit ['\n'] (getStr p.1 conversationKey)).length)) =
      some (1, 2) := by
  decide

/-- C2 (amended): for every successfully parsed document none of whose
turns carries a newline inside `role_ru` or `timestamp_local` (normalized
`text` never does), the `conversation` field splits on newline into
exactly one line per turn, in order, line `j` being rendered from turn `j`
and carrying its utterance text. -/
theorem c2_conversation_matches_turns (doc : List Table) (hdr : Header)
    (turns : List Turn) (hok : parse_call_html doc = Except.ok (hdr, turns))
    (hnl : ∀ t ∈ turns, '\n' ∉ t.role_ru ∧ '\n' ∉ t.timestamp_local) :
    ∃ conv, getStrOpt hdr conversationKey = some conv ∧
      pySplit ['\n'] conv = renderedLines 0 turns ∧
      (pySplit ['\n'] conv).length = turns.length := by
  obtain ⟨table, rest, rfl, hne, hhdr, hturns⟩ := parse_ok_shape _ hdr turns hok
  subst hhdr
  subst hturns
  have hst := stateOK_foldl table initState stateOK_init
  have hLne : (table.foldl processRow initState).conversationLines ≠ [] := by
    rw [hst.1]
    intro hc
    apply hne
    have hlen0 := congrArg List.length hc
    rw [renderAll_length] at hlen0
    exact List.length_eq_zero.mp (by simpa using hlen0)
  have hLnl : ∀ l ∈ (table.foldl processRow initState).conversationLines, '\n' ∉ l := by
    intro l hl
    rw [hst.1] at hl
    obtain ⟨⟨j, hj⟩, rfl⟩ := List.mem_iff_get.mp hl
    have hj2 : j < (table.foldl processRow initState).dialogue.length := by
      have hrl := renderAll_length (table.foldl processRow initState).dialogue 0
      omega
    rw [renderAll_get _ 0 j hj hj2]
    have hjt : j < (assignTurnIdx 1 (table.foldl processRow initState).dialogue).length := by
      rw [assignTurnIdx_length]; exact hj2
    have hT := hnl _ (List.get_mem (assignTurnIdx 1 (table.foldl processRow initState).dialogue) j hjt)
    rw [assignTurnIdx_get _ 1 j hjt hj2] at hT
    exact renderEntry_no_newline (0 + j) _ hT.1 hT.2
      (hst.2 _ (List.get_mem (table.foldl processRow initState).dialogue j hj2)).2.2.2
  have hsplit := split_join_lines (table.foldl processRow initState).conversationLines hLne hLnl
  refine ⟨List.intercalate ['\n'] (table.foldl processRow initState).conversationLines,
    getStrOpt_finalHeader_conversation (table.foldl processRow initState), ?_, ?_⟩
  · rw [hsplit, hst.1, renderedLines_assign]
  · rw [hsplit, hst.1, renderAll_length, assignTurnIdx_length]

/-- C2 witness: the amended statement at a concrete one-row document with
newline-free fields. -/
theorem c2_witness :
    ∃ conv, getStrOpt (okHeader (parse_call_html docEmployeeRow)) conversationKey =
        some conv ∧
      pySplit ['\n'] conv = renderedLines 0 (okTurns (parse_call_html docEmployeeRow)) ∧
      (pySplit ['\n'] conv).length = (okTurns (parse_call_html docEmployeeRow)).length :=
  c2_conversation_matches_turns docEmployeeRow
    (okHeader (parse_call_html docEmployeeRow))
    (okTurns (parse_call_html docEmployeeRow)) (by decide) (by decide)
